import Mathlib

/-!
Shallow embedding of the schedule calendar core of `frontend/assets/chatbot.js`:
time parsing/formatting (`parseTime`, `formatTime`), interval validation and
event construction (`renderCalendar`'s per-entry filter), conflict detection
(`detectConflicts`) and grid layout (slots and placements), together with
theorems checking the specification's claims about them.

JS numbers on these code paths are integers or NaN: we embed them as
`Option Int` where NaN can occur (parsing) and `Int` elsewhere.  JS
`Math.floor` division is `Int.fdiv`, the JS `%` remainder is `Int.tmod`.
-/

set_option maxRecDepth 4000

namespace Advisor

/-- `DAY_ORDER` from chatbot.js: day keys in calendar column order. -/
def DAY_ORDER : List String := ["sun", "mon", "tue", "wed", "thu", "fri", "sat"]

/-- One scheduled occurrence as pushed onto `events` by `renderCalendar`. -/
structure Event where
  day : String
  start : Int
  «end» : Int
  course : Option String
  title : String
  prof : String
  conflict : Bool
deriving Repr, DecidableEq

/-- One raw schedule entry of the backend payload (`{from, to, course, title?, prof?, professor?}`). -/
structure Entry where
  «from» : String
  «to» : String
  course : Option String
  title : Option String
  prof : Option String
  professor : Option String
deriving Repr, DecidableEq

/-- JS `String.prototype.split(":")` on the underlying character list:
splits at every colon, keeping empty pieces; the result is never empty. -/
def splitColon : List Char → List (List Char)
  | [] => [[]]
  | c :: rest =>
    match splitColon rest with
    | [] => [[]]
    | p :: ps => if c = ':' then [] :: p :: ps else (c :: p) :: ps

/-- The whitespace characters JS `parseInt` skips (the ones relevant here). -/
def isJsSpace (c : Char) : Bool := c = ' ' || c = '\t' || c = '\n' || c = '\r'

/-- Value of a run of decimal digit characters. -/
def digitsToNat (l : List Char) : Nat := l.foldl (fun acc c => acc * 10 + (c.toNat - 48)) 0

/-- JS `Number.parseInt(s, 10)`: skip leading whitespace, optional sign, then the
longest run of leading decimal digits; `none` encodes the NaN result when no
digit is found. -/
def jsParseInt (s : List Char) : Option Int :=
  let t := s.dropWhile isJsSpace
  match t with
  | '-' :: rest =>
    let ds := rest.takeWhile Char.isDigit
    if ds.isEmpty then none else some (-(digitsToNat ds : Int))
  | '+' :: rest =>
    let ds := rest.takeWhile Char.isDigit
    if ds.isEmpty then none else some ((digitsToNat ds : Int))
  | _ =>
    let ds := t.takeWhile Char.isDigit
    if ds.isEmpty then none else some ((digitsToNat ds : Int))

/-- `parseTime` from chatbot.js: split on `:`, destructure with default `"0"`
for a missing component, and compute `hours * 60 + minutes`; a NaN in either
component makes the whole result NaN (`none`). -/
def parseTime (value : String) : Option Int :=
  let parts := splitColon value.data
  let hours := (parts.get? 0).getD ['0']
  let minutes := (parts.get? 1).getD ['0']
  match jsParseInt hours, jsParseInt minutes with
  | some h, some m => some (h * 60 + m)
  | _, _ => none

/-- JS `String(n).padStart(2, "0")`. -/
def padStart2 (s : String) : String :=
  if s.length < 2 then String.mk (List.replicate (2 - s.length) '0') ++ s else s

/-- `formatTime` from chatbot.js: `Math.floor(minutes / 60)` is `Int.fdiv`,
the JS `%` remainder is `Int.tmod`, both rendered zero-padded to two digits. -/
def formatTime (minutes : Int) : String :=
  padStart2 (toString (minutes.fdiv 60)) ++ ":" ++ padStart2 (toString (minutes.tmod 60))

/-! ### Conflict detection (`detectConflicts`)

The JS function groups events by day into a `Map` (insertion order), sorts each
group in place by `start` (stable), and walks adjacent pairs setting
`conflict = true` on both members of a pair with `current.end > next.start`.
We embed the in-place mutation by tagging every event with its index in the
input array and computing the set of indices the scan marks; the day grouping
is reproduced with `filter` (which preserves the per-day input order) and the
day-key iteration order is immaterial because days are processed independently
and only membership in the marked-index list is consumed. -/

/-- Stable sort by `start`, as `list.sort((a, b) => a.start - b.start)`. -/
def sortByStart (l : List (Nat × Event)) : List (Nat × Event) :=
  l.mergeSort (fun a b => a.2.start ≤ b.2.start)

/-- Indices marked by the adjacent-pair scan: both members of every adjacent
pair with `current.end > next.start`. -/
def scanMark : List (Nat × Event) → List Nat
  | a :: b :: rest =>
    if b.2.start < a.2.«end» then a.1 :: b.1 :: scanMark (b :: rest)
    else scanMark (b :: rest)
  | _ => []

/-- The events of one day, each paired with its index in the input array. -/
def dayList (events : List Event) (d : String) : List (Nat × Event) :=
  events.enum.filter (fun p => p.2.day == d)

/-- The day keys occurring in the input (the `Map`'s key set). -/
def dayKeys (events : List Event) : List String := (events.map (fun e => e.day)).dedup

/-- All indices marked over all days. -/
def markedIdx (events : List Event) : List Nat :=
  (dayKeys events).flatMap (fun d => scanMark (sortByStart (dayList events d)))

/-- `detectConflicts`' effect on the events array: the same events in the same
order, with `conflict` set to `true` at every marked index. -/
def detectConflictsEvents (events : List Event) : List Event :=
  events.enum.map (fun p =>
    if p.1 ∈ markedIdx events then { p.2 with conflict := true } else p.2)

/-- `detectConflicts`' boolean result (`conflictFound`). -/
def detectConflictsFlag (events : List Event) : Bool :=
  !(markedIdx events).isEmpty

/-! ### Validation and rendering (`renderCalendar`) -/

/-- The per-entry validation inside `renderCalendar`: parse both endpoints and
drop the entry when either is NaN or `start >= end`. -/
def validateEntry (day : String) (entry : Entry) : Option Event :=
  match parseTime entry.«from», parseTime entry.«to» with
  | some s, some e =>
    if s ≥ e then none
    else some { day := day, start := s, «end» := e, course := entry.course,
                title := entry.title.getD "",
                prof := (entry.prof.orElse (fun _ => entry.professor)).getD "",
                conflict := false }
  | _, _ => none

/-- `schedule[day]` on the payload object; `none` stands for a missing or
non-array value, which `renderCalendar` skips. -/
def lookupDay (schedule : List (String × List Entry)) (d : String) : Option (List Entry) :=
  (schedule.find? (fun p => p.1 == d)).map (fun p => p.2)

/-- The validated event list `renderCalendar` builds, iterating `DAY_ORDER`. -/
def buildEvents (schedule : List (String × List Entry)) : List Event :=
  DAY_ORDER.flatMap (fun d =>
    match lookupDay schedule d with
    | none => []
    | some entries => entries.filterMap (validateEntry d))

/-- `Math.ceil(a / 30)` on integers. -/
def ceilDiv30 (a : Int) : Int := -((-a).fdiv 30)

/-- `events.reduce((min, e) => Math.min(min, e.start), Infinity)`:
`none` encodes the `Infinity` accumulator. -/
def minStart? (events : List Event) : Option Int :=
  events.foldl (fun acc e => some (match acc with | none => e.start | some m => min m e.start)) none

/-- `events.reduce((max, e) => Math.max(max, e.end), 0)`. -/
def maxEndFold (events : List Event) : Int :=
  events.foldl (fun acc e => max acc e.«end») 0

/-- The slot loop `for (time = s; time < e; time += 30) slots.push(time)`,
which runs `max 0 (ceil((e - s) / 30))` times. -/
def slotsList (s e : Int) : List Int :=
  (List.range (ceilDiv30 (e - s)).toNat).map (fun (k : Nat) => s + 30 * (k : Int))

/-- The grid placement of one event block. -/
structure Placement where
  dayColumn : Int
  rowStart : Int
  rowEnd : Int
  conflict : Bool
deriving Repr, DecidableEq

/-- One event's placement: column from `DAY_ORDER.indexOf(day) + 1` (skipped
when the day is unknown), rows from floor/ceil of the 30-minute offsets. -/
def placeEvent (calendarStart : Int) (e : Event) : Option Placement :=
  match DAY_ORDER.findIdx? (fun d => d == e.day) with
  | none => none
  | some k => some { dayColumn := (k : Int) + 1,
                     rowStart := (e.start - calendarStart).fdiv 30 + 1,
                     rowEnd := ceilDiv30 (e.«end» - calendarStart) + 1,
                     conflict := e.conflict }

/-- The observable output of `renderCalendar` when events exist. -/
structure GridOutput where
  conflictFound : Bool
  calendarStart : Int
  calendarEnd : Int
  slots : List Int
  placements : List Placement
deriving Repr, DecidableEq

/-- `renderCalendar`'s two outcomes: the "ask the advisor" placeholder for an
empty validated event set, or a populated grid. -/
inductive RenderOutput where
  | noEvents : RenderOutput
  | grid : GridOutput → RenderOutput
deriving Repr, DecidableEq

/-- `renderCalendar` from chatbot.js, modelling its observable output. -/
def renderCalendar (schedule : List (String × List Entry)) : RenderOutput :=
  let events := buildEvents schedule
  if events.isEmpty then RenderOutput.noEvents
  else
    let cs := ((minStart? events).getD 0).fdiv 30 * 30
    let ce := ceilDiv30 (maxEndFold events) * 30
    let marked := detectConflictsEvents events
    RenderOutput.grid { conflictFound := detectConflictsFlag events,
                        calendarStart := cs, calendarEnd := ce,
                        slots := slotsList cs ce,
                        placements := marked.filterMap (placeEvent cs) }

/-! ### Specification-side definitions (for refinement comparison) -/

/-- Interval overlap of two events on the same day (the spec's pairwise
conflict condition). -/
def overlapsB (a b : Event) : Bool :=
  a.day == b.day && decide (b.start < a.«end») && decide (a.start < b.«end»)

/-- Modelled from the spec: "full pairwise overlap comparison" conflict
marking — an event is flagged iff it overlaps some other (distinct-position)
event on the same day. -/
def pairwiseMark (events : List Event) : List Event :=
  events.enum.map (fun p =>
    if events.enum.any (fun q => decide (q.1 ≠ p.1) && overlapsB p.2 q.2)
    then { p.2 with conflict := true } else p.2)

/-! ### Helper lemmas: structure of `detectConflictsEvents` -/

theorem length_detectConflictsEvents (events : List Event) :
    (detectConflictsEvents events).length = events.length := by
  simp [detectConflictsEvents]

theorem detectConflictsEvents_getElem? (events : List Event) (i : Nat) :
    (detectConflictsEvents events)[i]? =
      events[i]?.map
        (fun e => if i ∈ markedIdx events then { e with conflict := true } else e) := by
  simp only [detectConflictsEvents, List.getElem?_map, List.enum_eq_enumFrom,
    List.getElem?_enumFrom, Nat.zero_add]
  cases events[i]? <;> simp

/-! ### Helper lemmas: the adjacent-pair scan -/

theorem mem_scanMark_cons {a b : Nat × Event} {rest : List (Nat × Event)} {i : Nat}
    (h : i ∈ scanMark (b :: rest)) : i ∈ scanMark (a :: b :: rest) := by
  rw [scanMark]
  split
  · exact List.mem_cons_of_mem _ (List.mem_cons_of_mem _ h)
  · exact h

theorem scanMark_sound {l : List (Nat × Event)} {i : Nat} (h : i ∈ scanMark l) :
    ∃ p a b, l[p]? = some a ∧ l[p + 1]? = some b ∧ b.2.start < a.2.«end» ∧
      (i = a.1 ∨ i = b.1) := by
  induction l with
  | nil => simp [scanMark] at h
  | cons x l ih =>
    cases l with
    | nil => simp [scanMark] at h
    | cons y rest =>
      rw [scanMark] at h
      have tailCase : i ∈ scanMark (y :: rest) →
          ∃ p a b, (x :: y :: rest)[p]? = some a ∧ (x :: y :: rest)[p + 1]? = some b ∧
            b.2.start < a.2.«end» ∧ (i = a.1 ∨ i = b.1) := by
        intro hmem
        obtain ⟨p, a, b, ha, hb, hlt, hi⟩ := ih hmem
        exact ⟨p + 1, a, b, by simpa using ha, by simpa using hb, hlt, hi⟩
      by_cases hc : y.2.start < x.2.«end»
      · rw [if_pos hc] at h
        rcases List.mem_cons.mp h with h1 | h'
        · exact ⟨0, x, y, rfl, by simp, hc, Or.inl h1⟩
        rcases List.mem_cons.mp h' with h2 | htail
        · exact ⟨0, x, y, rfl, by simp, hc, Or.inr h2⟩
        · exact tailCase htail
      · rw [if_neg hc] at h
        exact tailCase h

theorem scanMark_adjacent {l : List (Nat × Event)} {p : Nat} {a b : Nat × Event}
    (ha : l[p]? = some a) (hb : l[p + 1]? = some b) (hab : b.2.start < a.2.«end») :
    a.1 ∈ scanMark l ∧ b.1 ∈ scanMark l := by
  induction l generalizing p with
  | nil => simp at ha
  | cons x l ih =>
    cases l with
    | nil =>
      cases p with
      | zero => simp at hb
      | succ p => simp at hb
    | cons y rest =>
      cases p with
      | zero =>
        simp only [List.getElem?_cons_succ, List.getElem?_cons_zero,
          Option.some.injEq] at ha hb
        subst ha; subst hb
        rw [scanMark, if_pos hab]
        exact ⟨List.mem_cons_self _ _, List.mem_cons_of_mem _ (List.mem_cons_self _ _)⟩
      | succ p =>
        simp only [List.getElem?_cons_succ] at ha hb
        obtain ⟨h1, h2⟩ := ih ha (by simpa using hb)
        exact ⟨mem_scanMark_cons h1, mem_scanMark_cons h2⟩

/-! ### Helper lemmas: the per-day sorted lists -/

theorem sortByStart_perm (l : List (Nat × Event)) : List.Perm (sortByStart l) l :=
  List.mergeSort_perm l _

theorem sortByStart_sorted (l : List (Nat × Event)) :
    (sortByStart l).Pairwise (fun a b => a.2.start ≤ b.2.start) := by
  have h := @List.sorted_mergeSort (Nat × Event)
      (fun a b => decide (a.2.start ≤ b.2.start))
      (by intro a b c hab hbc; simp only [decide_eq_true_eq] at *; omega)
      (by intro a b; simp only [Bool.or_eq_true, decide_eq_true_eq]; omega) l
  exact h.imp (fun hab => by simpa using hab)

theorem mem_dayList {events : List Event} {d : String} {p : Nat × Event} :
    p ∈ dayList events d ↔ events[p.1]? = some p.2 ∧ p.2.day = d := by
  constructor
  · intro h
    obtain ⟨hmem, hday⟩ := List.mem_filter.mp h
    refine ⟨?_, by simpa using hday⟩
    simpa using List.mem_enum_iff_getElem?.mp hmem
  · intro ⟨hget, hday⟩
    refine List.mem_filter.mpr ⟨?_, by simpa using hday⟩
    exact List.mem_enum_iff_getElem?.mpr (by simpa using hget)

theorem mem_sortByStart_dayList {events : List Event} {d : String} {p : Nat × Event} :
    p ∈ sortByStart (dayList events d) ↔ events[p.1]? = some p.2 ∧ p.2.day = d := by
  rw [(sortByStart_perm (dayList events d)).mem_iff]
  exact mem_dayList

/-- The index components of a per-day sorted list have no duplicates. -/
theorem nodup_fst_sortByStart_dayList (events : List Event) (d : String) :
    ((sortByStart (dayList events d)).map Prod.fst).Nodup := by
  have base : (events.enum.map Prod.fst).Nodup := by
    rw [List.enum_eq_enumFrom, List.enumFrom_map_fst]
    exact List.nodup_range' _ _
  have sub : ((dayList events d).map Prod.fst).Nodup :=
    ((List.filter_sublist _).map Prod.fst).nodup base
  exact (((sortByStart_perm (dayList events d)).map Prod.fst).nodup_iff).mpr sub

/-! ### Helper lemmas: `markedIdx` membership -/

theorem mem_markedIdx {events : List Event} {i : Nat} :
    i ∈ markedIdx events ↔
      ∃ d, d ∈ dayKeys events ∧ i ∈ scanMark (sortByStart (dayList events d)) := by
  simp [markedIdx, List.mem_flatMap]

theorem day_mem_dayKeys {events : List Event} {i : Nat} {e : Event}
    (h : events[i]? = some e) : e.day ∈ dayKeys events :=
  List.mem_dedup.mpr (List.mem_map.mpr ⟨e, List.getElem?_mem h, rfl⟩)

/-- Soundness of the marking: a marked index carries an event that genuinely
overlaps another event (at a different input position) on the same day. -/
theorem marked_overlap {events : List Event} {i : Nat}
    (valid : ∀ e ∈ events, e.start < e.«end»)
    (h : i ∈ markedIdx events) :
    ∃ j a b, j ≠ i ∧ events[i]? = some a ∧ events[j]? = some b ∧
      a.day = b.day ∧ b.start < a.«end» ∧ a.start < b.«end» := by
  obtain ⟨d, -, hscan⟩ := mem_markedIdx.mp h
  set l := sortByStart (dayList events d) with hl
  obtain ⟨p, u, v, hu, hv, hlt, hi⟩ := scanMark_sound hscan
  have huMem : events[u.1]? = some u.2 ∧ u.2.day = d :=
    mem_sortByStart_dayList.mp (List.getElem?_mem hu)
  have hvMem : events[v.1]? = some v.2 ∧ v.2.day = d :=
    mem_sortByStart_dayList.mp (List.getElem?_mem hv)
  have hup := List.getElem?_eq_some_iff.mp hu
  have hvp := List.getElem?_eq_some_iff.mp hv
  obtain ⟨hplen, hueq⟩ := hup
  obtain ⟨hqlen, hveq⟩ := hvp
  have hne : u.1 ≠ v.1 := by
    have hnd := nodup_fst_sortByStart_dayList events d
    rw [← hl] at hnd
    have := List.pairwise_iff_getElem.mp hnd p (p + 1)
      (by simpa using hplen) (by simpa using hqlen) (Nat.lt_succ_self p)
    simpa [hueq, hveq] using this
  have hle : u.2.start ≤ v.2.start := by
    have := List.pairwise_iff_getElem.mp (by rw [hl] at *; exact sortByStart_sorted _)
      p (p + 1) hplen hqlen (Nat.lt_succ_self p)
    simpa [hueq, hveq] using this
  have hvalidV : v.2.start < v.2.«end» := valid v.2 (List.getElem?_mem hvMem.1)
  have hov2 : u.2.start < v.2.«end» := lt_of_le_of_lt hle hvalidV
  rcases hi with hiu | hiv
  · subst hiu
    exact ⟨v.1, u.2, v.2, hne.symm, huMem.1, hvMem.1,
      huMem.2.trans hvMem.2.symm, hlt, hov2⟩
  · subst hiv
    exact ⟨u.1, v.2, u.2, hne, hvMem.1, huMem.1,
      hvMem.2.trans huMem.2.symm, hov2, hlt⟩

/-- From two positions `p < q` of the sorted per-day list whose events overlap,
the scan marks the event at `p` (monotone starts make the pair at `p`
overlapping already). -/
theorem adjacent_from_positions {l : List (Nat × Event)} {p q : Nat} {u v : Nat × Event}
    (hsorted : l.Pairwise (fun a b => a.2.start ≤ b.2.start))
    (hpq : p < q) (hu : l[p]? = some u) (hv : l[q]? = some v)
    (hov : v.2.start < u.2.«end») :
    u.1 ∈ scanMark l := by
  obtain ⟨hplen, hueq⟩ := List.getElem?_eq_some_iff.mp hu
  obtain ⟨hqlen, hveq⟩ := List.getElem?_eq_some_iff.mp hv
  have hsucclen : p + 1 < l.length := Nat.lt_of_le_of_lt (Nat.succ_le_of_lt hpq) hqlen
  obtain ⟨c, hcw⟩ : ∃ c, l[p + 1]? = some c :=
    ⟨l.get ⟨p + 1, hsucclen⟩, List.getElem?_eq_some_iff.mpr ⟨hsucclen, rfl⟩⟩
  obtain ⟨hclen, hceq⟩ := List.getElem?_eq_some_iff.mp hcw
  have hcLeV : c.2.start ≤ v.2.start := by
    rcases Nat.lt_or_ge (p + 1) q with hlt | hge
    · have := List.pairwise_iff_getElem.mp hsorted (p + 1) q hclen hqlen hlt
      simpa [hceq, hveq] using this
    · have : p + 1 = q := Nat.le_antisymm (Nat.succ_le_of_lt hpq) hge
      subst this
      rw [hceq] at hveq
      simp [hveq]
  have hcond : c.2.start < u.2.«end» := lt_of_le_of_lt hcLeV hov
  exact (scanMark_adjacent hu hcw hcond).1

/-- Completeness for the aggregate flag: a same-day overlap between two
distinct input positions forces at least one marked index. -/
theorem overlap_implies_marked {events : List Event} {i j : Nat} {a b : Event}
    (hij : i ≠ j) (hi : events[i]? = some a) (hj : events[j]? = some b)
    (hday : a.day = b.day) (hov1 : b.start < a.«end») (hov2 : a.start < b.«end») :
    ∃ k, k ∈ markedIdx events := by
  set d := a.day with hd
  set l := sortByStart (dayList events d) with hl
  have hmemA : (i, a) ∈ l := mem_sortByStart_dayList.mpr ⟨hi, rfl⟩
  have hmemB : (j, b) ∈ l := mem_sortByStart_dayList.mpr ⟨hj, hday.symm⟩
  obtain ⟨p, hpeq⟩ := List.mem_iff_getElem?.mp hmemA
  obtain ⟨q, hqeq⟩ := List.mem_iff_getElem?.mp hmemB
  have hpq : p ≠ q := by
    intro hEq
    apply hij
    rw [hEq] at hpeq
    have : some ((i, a) : Nat × Event) = some (j, b) := hpeq.symm.trans hqeq
    have := Option.some.inj this
    exact congrArg Prod.fst this
  have hdk : d ∈ dayKeys events := day_mem_dayKeys hi
  have hsorted : l.Pairwise (fun x y => x.2.start ≤ y.2.start) := sortByStart_sorted _
  rcases Nat.lt_or_ge p q with hlt | hge
  · refine ⟨i, mem_markedIdx.mpr ⟨d, hdk, ?_⟩⟩
    have := adjacent_from_positions hsorted hlt hpeq hqeq (by simpa using hov1)
    simpa using this
  · have hqp : q < p := Nat.lt_of_le_of_ne hge (Ne.symm hpq)
    refine ⟨j, mem_markedIdx.mpr ⟨d, hdk, ?_⟩⟩
    have := adjacent_from_positions hsorted hqp hqeq hpeq (by simpa using hov2)
    simpa using this

/-! ### Helper lemmas: flag and identity map -/

theorem enum_map_snd (events : List Event) :
    (events.enum.map (fun p => p.2)) = events := by
  have h : (fun p : Nat × Event => p.2) = Prod.snd := rfl
  rw [h, List.enum_eq_enumFrom, List.enumFrom_map_snd]

theorem detectConflictsEvents_of_nil {events : List Event}
    (h : markedIdx events = []) : detectConflictsEvents events = events := by
  unfold detectConflictsEvents
  rw [h]
  simp only [List.not_mem_nil, if_false]
  exact enum_map_snd events

theorem detectConflictsFlag_iff {events : List Event} :
    detectConflictsFlag events = true ↔ ∃ k, k ∈ markedIdx events := by
  cases h : markedIdx events with
  | nil => simp [detectConflictsFlag, h]
  | cons x t =>
    simp only [detectConflictsFlag, h]
    simp only [List.isEmpty_cons, Bool.not_false, true_iff]
    exact ⟨x, List.mem_cons_self x t⟩

theorem pairwiseMark_getElem? (events : List Event) (i : Nat) :
    (pairwiseMark events)[i]? = events[i]?.map
      (fun e => if events.enum.any (fun q => decide (q.1 ≠ i) && overlapsB e q.2)
                then { e with conflict := true } else e) := by
  simp only [pairwiseMark, List.getElem?_map, List.enum_eq_enumFrom,
    List.getElem?_enumFrom, Nat.zero_add]
  cases events[i]? <;> simp

/-! ### Helper lemmas: evaluating the sort on already-sorted inputs -/

theorem markedIdx_of_enum_sorted {events : List Event}
    (h : events.enum.Pairwise (fun a b => a.2.start ≤ b.2.start)) :
    markedIdx events = (dayKeys events).flatMap (fun d => scanMark (dayList events d)) := by
  unfold markedIdx
  congr 1
  funext d
  congr 1
  unfold sortByStart
  apply List.mergeSort_of_sorted
  exact (List.Pairwise.sublist (List.filter_sublist _) h).imp (fun hab => decide_eq_true hab)

theorem detectConflictsEvents_eq {events : List Event} {m : List Nat}
    (hm : markedIdx events = m) :
    detectConflictsEvents events =
      events.enum.map (fun p => if p.1 ∈ m then { p.2 with conflict := true } else p.2) := by
  unfold detectConflictsEvents
  rw [hm]

theorem detectConflictsFlag_eq {events : List Event} {m : List Nat}
    (hm : markedIdx events = m) : detectConflictsFlag events = !m.isEmpty := by
  unfold detectConflictsFlag
  rw [hm]

/-! ### Claim theorems: conflict detection -/

/-- C3: the aggregate boolean returned by `detectConflicts` is true iff two
events at distinct input positions share a day and have overlapping intervals;
and when no such overlap exists, no event is marked (the output equals the
input) and the flag is false — in particular this holds for every input
order, since the right-hand side is order-independent. -/
theorem claim3_flag_iff_overlap (events : List Event)
    (valid : ∀ e ∈ events, e.start < e.«end») :
    (detectConflictsFlag events = true ↔
      (∃ i j : Nat, ∃ a b : Event, i ≠ j ∧ events[i]? = some a ∧ events[j]? = some b ∧
        a.day = b.day ∧ b.start < a.«end» ∧ a.start < b.«end»)) ∧
    ((¬ ∃ i j : Nat, ∃ a b : Event, i ≠ j ∧ events[i]? = some a ∧ events[j]? = some b ∧
        a.day = b.day ∧ b.start < a.«end» ∧ a.start < b.«end») →
      detectConflictsEvents events = events ∧ detectConflictsFlag events = false) := by
  have main : detectConflictsFlag events = true ↔
      (∃ i j : Nat, ∃ a b : Event, i ≠ j ∧ events[i]? = some a ∧ events[j]? = some b ∧
        a.day = b.day ∧ b.start < a.«end» ∧ a.start < b.«end») := by
    constructor
    · intro h
      obtain ⟨k, hk⟩ := detectConflictsFlag_iff.mp h
      obtain ⟨j, a, b, hne, hia, hjb, hday, h1, h2⟩ := marked_overlap valid hk
      exact ⟨k, j, a, b, hne.symm, hia, hjb, hday, h1, h2⟩
    · intro ⟨i, j, a, b, hne, hia, hjb, hday, h1, h2⟩
      exact detectConflictsFlag_iff.mpr (overlap_implies_marked hne hia hjb hday h1 h2)
  refine ⟨main, fun hno => ?_⟩
  have hnil : markedIdx events = [] := by
    cases hm : markedIdx events with
    | nil => rfl
    | cons k t =>
      exfalso
      apply hno
      have hk : k ∈ markedIdx events := by rw [hm]; exact List.mem_cons_self k t
      obtain ⟨j, a, b, hne, hia, hjb, hday, h1, h2⟩ := marked_overlap valid hk
      exact ⟨k, j, a, b, hne.symm, hia, hjb, hday, h1, h2⟩
  refine ⟨detectConflictsEvents_of_nil hnil, ?_⟩
  rw [detectConflictsFlag_eq hnil]
  rfl

/-- Witness for C3 at a concrete overlapping pair. -/
theorem claim3_witness :
    detectConflictsFlag
      [⟨"mon", 540, 620, none, "", "", false⟩,
       ⟨"mon", 600, 660, none, "", "", false⟩] = true := by
  have h := claim3_flag_iff_overlap
    [⟨"mon", 540, 620, none, "", "", false⟩,
     ⟨"mon", 600, 660, none, "", "", false⟩] (by decide)
  exact h.1.mpr ⟨0, 1, ⟨"mon", 540, 620, none, "", "", false⟩,
    ⟨"mon", 600, 660, none, "", "", false⟩,
    by decide, rfl, rfl, rfl, by decide, by decide⟩

/-- C1 counterexample: with the same-day events [0,100), [10,20), [30,40)
(already in start order), the adjacent-pair scan marks only the first two,
although the third overlaps the first — full pairwise comparison marks all
three, so the two methods do not produce identical conflict flags. -/
theorem claim1_counterexample :
    (detectConflictsEvents
        [⟨"mon", 0, 100, none, "", "", false⟩,
         ⟨"mon", 10, 20, none, "", "", false⟩,
         ⟨"mon", 30, 40, none, "", "", false⟩])[2]? =
      some ⟨"mon", 30, 40, none, "", "", false⟩ ∧
    overlapsB ⟨"mon", 30, 40, none, "", "", false⟩ ⟨"mon", 0, 100, none, "", "", false⟩ = true ∧
    (pairwiseMark
        [⟨"mon", 0, 100, none, "", "", false⟩,
         ⟨"mon", 10, 20, none, "", "", false⟩,
         ⟨"mon", 30, 40, none, "", "", false⟩])[2]? =
      some ⟨"mon", 30, 40, none, "", "", true⟩ := by
  have hm : markedIdx
      [⟨"mon", 0, 100, none, "", "", false⟩,
       ⟨"mon", 10, 20, none, "", "", false⟩,
       ⟨"mon", 30, 40, none, "", "", false⟩] = [0, 1] := by
    rw [markedIdx_of_enum_sorted (by decide)]
    decide
  refine ⟨?_, by decide, by decide⟩
  rw [detectConflictsEvents_eq hm]
  decide

/-- C1 (amended): the adjacent-pair scan is sound with respect to full
pairwise comparison — every event it marks `conflict = true` is marked
identically by the pairwise method (it genuinely overlaps another same-day
event) — but the two are not equivalent: the scan may leave an event
unmarked that overlaps a non-adjacent earlier event. -/
theorem claim1_scan_within_pairwise (events : List Event)
    (valid : ∀ e ∈ events, e.start < e.«end»)
    (hinit : ∀ e ∈ events, e.conflict = false)
    (i : Nat) (a : Event)
    (h : (detectConflictsEvents events)[i]? = some a) (hc : a.conflict = true) :
    (pairwiseMark events)[i]? = some a := by
  rw [detectConflictsEvents_getElem?] at h
  cases he : events[i]? with
  | none => rw [he] at h; simp at h
  | some e =>
    rw [he] at h
    simp only [Option.map_some'] at h
    have ha := Option.some.inj h
    by_cases hm : i ∈ markedIdx events
    · rw [if_pos hm] at ha
      obtain ⟨j, b0, c0, hne, hia, hjb, hday, h1, h2⟩ := marked_overlap valid hm
      rw [he] at hia
      have hb0 : b0 = e := (Option.some.inj hia).symm
      subst hb0
      rw [pairwiseMark_getElem?, he]
      have hany : events.enum.any (fun q => decide (q.1 ≠ i) && overlapsB b0 q.2) = true := by
        rw [List.any_eq_true]
        refine ⟨(j, c0), List.mem_enum_iff_getElem?.mpr hjb, ?_⟩
        simp [overlapsB, hne, hday, h1, h2]
      simp only [Option.map_some', hany, if_pos]
      rw [ha]
    · rw [if_neg hm] at ha
      have hfalse : e.conflict = false := hinit e (List.getElem?_mem he)
      rw [← ha, hfalse] at hc
      exact absurd hc (by simp)

/-- Witness for C1 (amended) at a marked index of a concrete overlapping pair. -/
theorem claim1_witness :
    (pairwiseMark
      [⟨"mon", 540, 620, none, "", "", false⟩,
       ⟨"mon", 600, 660, none, "", "", false⟩])[0]? =
      some ⟨"mon", 540, 620, none, "", "", true⟩ := by
  have hm : markedIdx
      [⟨"mon", 540, 620, none, "", "", false⟩,
       ⟨"mon", 600, 660, none, "", "", false⟩] = [0, 1] := by
    rw [markedIdx_of_enum_sorted (by decide)]
    decide
  apply claim1_scan_within_pairwise
      [⟨"mon", 540, 620, none, "", "", false⟩,
       ⟨"mon", 600, 660, none, "", "", false⟩]
      (by decide) (by decide) 0 ⟨"mon", 540, 620, none, "", "", true⟩
  · rw [detectConflictsEvents_eq hm]
    decide
  · rfl

/-- C10: `detectConflicts` only annotates — it preserves the number of events
and every field of every event except `conflict`, and it never resets an
already-true `conflict` flag. -/
theorem claim10_frame (events : List Event) :
    (detectConflictsEvents events).length = events.length ∧
    ∀ (i : Nat) (e : Event), events[i]? = some e →
      ∃ f : Event, (detectConflictsEvents events)[i]? = some f ∧
        f.day = e.day ∧ f.start = e.start ∧ f.«end» = e.«end» ∧
        f.course = e.course ∧ f.title = e.title ∧ f.prof = e.prof ∧
        (e.conflict = true → f.conflict = true) := by
  refine ⟨length_detectConflictsEvents events, fun i e he => ?_⟩
  rw [detectConflictsEvents_getElem?, he]
  by_cases hm : i ∈ markedIdx events
  · exact ⟨{ e with conflict := true }, by simp [hm], rfl, rfl, rfl, rfl, rfl, rfl,
      fun _ => rfl⟩
  · exact ⟨e, by simp [hm], rfl, rfl, rfl, rfl, rfl, rfl, fun hct => hct⟩

/-- Witness for C10 at a concrete index. -/
theorem claim10_witness :
    ∃ f, (detectConflictsEvents [⟨"tue", 60, 120, none, "", "", false⟩])[0]? = some f ∧
      f.day = "tue" ∧ f.start = 60 ∧ f.«end» = 120 ∧
      f.course = (none : Option String) ∧ f.title = "" ∧ f.prof = "" ∧
      (false = true → f.conflict = true) := by
  have h := (claim10_frame [⟨"tue", 60, 120, none, "", "", false⟩]).2 0
    ⟨"tue", 60, 120, none, "", "", false⟩ rfl
  exact h

/-- C4 counterexample: in the same-day events [0,50), [10,60), [60,70) the
second and third are adjacent in start order and back-to-back
(`end = start`), yet the second IS marked as a conflict (because it overlaps
the first event), refuting "neither is marked". -/
theorem claim4_counterexample :
    sortByStart (dayList
        [⟨"mon", 0, 50, none, "", "", false⟩,
         ⟨"mon", 10, 60, none, "", "", false⟩,
         ⟨"mon", 60, 70, none, "", "", false⟩] "mon") =
      [(0, ⟨"mon", 0, 50, none, "", "", false⟩),
       (1, ⟨"mon", 10, 60, none, "", "", false⟩),
       (2, ⟨"mon", 60, 70, none, "", "", false⟩)] ∧
    (⟨"mon", 10, 60, none, "", "", false⟩ : Event).«end» =
      (⟨"mon", 60, 70, none, "", "", false⟩ : Event).start ∧
    (detectConflictsEvents
        [⟨"mon", 0, 50, none, "", "", false⟩,
         ⟨"mon", 10, 60, none, "", "", false⟩,
         ⟨"mon", 60, 70, none, "", "", false⟩])[1]? =
      some ⟨"mon", 10, 60, none, "", "", true⟩ := by
  have hm : markedIdx
      [⟨"mon", 0, 50, none, "", "", false⟩,
       ⟨"mon", 10, 60, none, "", "", false⟩,
       ⟨"mon", 60, 70, none, "", "", false⟩] = [0, 1] := by
    rw [markedIdx_of_enum_sorted (by decide)]
    decide
  refine ⟨?_, by decide, ?_⟩
  · exact List.mergeSort_of_sorted (by decide)
  · rw [detectConflictsEvents_eq hm]
    decide

/-- C4 (amended): the strict greater-than comparison means a back-to-back
adjacent pair never causes a mark by itself: if two events, earlier-ending
exactly at the later's start, are the only events of their day, neither is
marked and the flag stays false; and an adjacent pair in start order whose
earlier member ends one minute after the later one starts gets both members
marked.  (An event of a back-to-back pair can still be marked through an
overlap with a third event — see the counterexample.) -/
theorem claim4_adjacent_boundaries :
    (∀ a b : Event, b.day = a.day → a.start ≤ b.start → a.«end» = b.start →
      detectConflictsEvents [a, b] = [a, b] ∧ detectConflictsFlag [a, b] = false) ∧
    (∀ (events : List Event) (d : String) (p : Nat) (u v : Nat × Event),
      (sortByStart (dayList events d))[p]? = some u →
      (sortByStart (dayList events d))[p + 1]? = some v →
      u.2.«end» = v.2.start + 1 →
      ∃ a b : Event, (detectConflictsEvents events)[u.1]? = some a ∧ a.conflict = true ∧
        (detectConflictsEvents events)[v.1]? = some b ∧ b.conflict = true) := by
  constructor
  · intro a b hday hle hbb
    have hkeys : dayKeys [a, b] = [a.day] := by
      unfold dayKeys
      simp only [List.map_cons, List.map_nil]
      rw [hday]
      rw [List.dedup_cons_of_mem (List.mem_singleton.mpr rfl)]
      rfl
    have hdl : dayList [a, b] a.day = [(0, a), (1, b)] := by
      unfold dayList
      have henum : ([a, b] : List Event).enum = [(0, a), (1, b)] := rfl
      rw [henum]
      simp [List.filter_cons, hday]
    have hsort : sortByStart [(0, a), (1, b)] = [(0, a), (1, b)] := by
      apply List.mergeSort_of_sorted
      refine List.Pairwise.cons ?_ (List.pairwise_singleton _ _)
      intro y hy
      rw [List.mem_singleton] at hy
      subst hy
      exact decide_eq_true hle
    have hscan : scanMark [(0, a), (1, b)] = [] := by
      simp only [scanMark]
      rw [hbb, if_neg (lt_irrefl b.start)]
    have hm : markedIdx [a, b] = [] := by
      unfold markedIdx
      rw [hkeys]
      simp only [List.flatMap_cons, List.flatMap_nil, List.append_nil]
      rw [hdl, hsort, hscan]
    refine ⟨detectConflictsEvents_of_nil hm, ?_⟩
    rw [detectConflictsFlag_eq hm]
    rfl
  · intro events d p u v hu hv hplus
    have hcond : v.2.start < u.2.«end» := by rw [hplus]; omega
    obtain ⟨hmu, hmv⟩ := scanMark_adjacent hu hv hcond
    have huMem := mem_sortByStart_dayList.mp (List.getElem?_mem hu)
    have hvMem := mem_sortByStart_dayList.mp (List.getElem?_mem hv)
    have hdk : d ∈ dayKeys events := by
      have h := day_mem_dayKeys huMem.1
      rwa [huMem.2] at h
    refine ⟨{ u.2 with conflict := true }, { v.2 with conflict := true }, ?_, rfl, ?_, rfl⟩
    · rw [detectConflictsEvents_getElem?, huMem.1]
      simp [mem_markedIdx.mpr ⟨d, hdk, hmu⟩]
    · rw [detectConflictsEvents_getElem?, hvMem.1]
      simp [mem_markedIdx.mpr ⟨d, hdk, hmv⟩]

/-- Witness for C4 at concrete back-to-back and one-minute-overlap pairs. -/
theorem claim4_witness :
    (detectConflictsEvents
        [⟨"wed", 0, 60, none, "", "", false⟩, ⟨"wed", 60, 120, none, "", "", false⟩] =
      [⟨"wed", 0, 60, none, "", "", false⟩, ⟨"wed", 60, 120, none, "", "", false⟩]) ∧
    (∃ a b : Event,
      (detectConflictsEvents
          [⟨"thu", 0, 61, none, "", "", false⟩, ⟨"thu", 60, 120, none, "", "", false⟩])[0]? =
        some a ∧ a.conflict = true ∧
      (detectConflictsEvents
          [⟨"thu", 0, 61, none, "", "", false⟩, ⟨"thu", 60, 120, none, "", "", false⟩])[1]? =
        some b ∧ b.conflict = true) := by
  constructor
  · exact (claim4_adjacent_boundaries.1 ⟨"wed", 0, 60, none, "", "", false⟩
      ⟨"wed", 60, 120, none, "", "", false⟩ rfl (by decide) rfl).1
  · have hs : sortByStart (dayList
        [⟨"thu", 0, 61, none, "", "", false⟩, ⟨"thu", 60, 120, none, "", "", false⟩] "thu") =
        dayList [⟨"thu", 0, 61, none, "", "", false⟩,
          ⟨"thu", 60, 120, none, "", "", false⟩] "thu" :=
      List.mergeSort_of_sorted (by decide)
    exact claim4_adjacent_boundaries.2
      [⟨"thu", 0, 61, none, "", "", false⟩, ⟨"thu", 60, 120, none, "", "", false⟩] "thu" 0
      (0, ⟨"thu", 0, 61, none, "", "", false⟩) (1, ⟨"thu", 60, 120, none, "", "", false⟩)
      (by rw [hs]; decide) (by rw [hs]; decide) (by decide)

/-! ### Claim theorems: parsing and validation -/

/-- C2 counterexample: JS `parseInt("bad", 10)` is NaN (there is no leading
digit), not 0, so the start of `{day: tue, from: "bad", to: "10:00"}` parses
to NaN, the NaN check drops the entry, and nothing is retained — the claim's
"parses to 0 minutes and is retained spanning 00:00-10:00" is false. -/
theorem claim2_counterexample :
    parseTime "bad" = none ∧
    buildEvents [("tue", [⟨"bad", "10:00", none, none, none, none⟩])] = [] := by
  decide

/-- C2 (amended): for the entry `{day: tue, from: "bad", to: "10:00"}`,
`parseTime` returns NaN (`none`) for the non-numeric hour component (only a
*missing* component defaults to 0), so the entry fails the NaN validation
check and is silently dropped: it produces no event and the calendar shows
the no-events placeholder. -/
theorem claim2_malformed_dropped :
    parseTime "bad" = none ∧
    validateEntry "tue" ⟨"bad", "10:00", none, none, none, none⟩ = none ∧
    buildEvents [("tue", [⟨"bad", "10:00", none, none, none, none⟩])] = [] ∧
    renderCalendar [("tue", [⟨"bad", "10:00", none, none, none, none⟩])] =
      RenderOutput.noEvents := by
  decide

/-- A retained event records exactly the parsed endpoints, in order. -/
theorem validateEntry_some {day : String} {entry : Entry} {ev : Event}
    (h : validateEntry day entry = some ev) :
    ev.start < ev.«end» ∧ parseTime entry.«from» = some ev.start ∧
      parseTime entry.«to» = some ev.«end» ∧ ev.day = day ∧ ev.conflict = false := by
  unfold validateEntry at h
  cases hf : parseTime entry.«from» with
  | none => rw [hf] at h; simp at h
  | some s =>
    cases ht : parseTime entry.«to» with
    | none => rw [hf, ht] at h; simp at h
    | some e =>
      rw [hf, ht] at h
      simp only at h
      by_cases hge : s ≥ e
      · rw [if_pos hge] at h; simp at h
      · rw [if_neg hge] at h
        have he := Option.some.inj h
        subst he
        refine ⟨?_, rfl, rfl, rfl, rfl⟩
        show s < e
        omega

/-- Dropped entries are exactly those with a NaN endpoint or start >= end. -/
theorem validateEntry_none_iff (day : String) (entry : Entry) :
    validateEntry day entry = none ↔
      parseTime entry.«from» = none ∨ parseTime entry.«to» = none ∨
      (∃ s e : Int, parseTime entry.«from» = some s ∧ parseTime entry.«to» = some e ∧
        e ≤ s) := by
  unfold validateEntry
  cases hf : parseTime entry.«from» with
  | none => simp
  | some s =>
    cases ht : parseTime entry.«to» with
    | none => simp
    | some e =>
      dsimp only
      by_cases hge : s ≥ e
      · rw [if_pos hge]
        constructor
        · intro _
          exact Or.inr (Or.inr ⟨s, e, rfl, rfl, hge⟩)
        · intro _
          rfl
      · rw [if_neg hge]
        constructor
        · intro hcon
          exact absurd hcon (by simp)
        · intro hdisj
          rcases hdisj with hbad | hbad | ⟨s2, e2, hs2, he2, hle⟩
          · exact absurd hbad (by simp)
          · exact absurd hbad (by simp)
          · exfalso
            have h1 := Option.some.inj hs2
            have h2 := Option.some.inj he2
            omega

/-- Every event the validation pass retains satisfies `start < end`. -/
theorem buildEvents_valid {schedule : List (String × List Entry)} :
    ∀ ev ∈ buildEvents schedule, ev.start < ev.«end» := by
  intro ev hev
  unfold buildEvents at hev
  rw [List.mem_flatMap] at hev
  obtain ⟨d, -, hmem⟩ := hev
  cases hl : lookupDay schedule d with
  | none => rw [hl] at hmem; simp at hmem
  | some entries =>
    rw [hl] at hmem
    obtain ⟨entry, -, hval⟩ := List.mem_filterMap.mp hmem
    exact (validateEntry_some hval).1

/-- C5: an interval is dropped by validation exactly when one of its parsed
endpoints is NaN or its parsed start is not less than its parsed end; the
drop is silent (the entry simply yields no event, no error value exists in
the pipeline), and every retained event — hence everything that reaches
conflict detection and layout — satisfies `start < end`. -/
theorem claim5_validation_drops (day : String) (entry : Entry)
    (schedule : List (String × List Entry)) :
    (validateEntry day entry = none ↔
      parseTime entry.«from» = none ∨ parseTime entry.«to» = none ∨
      (∃ s e : Int, parseTime entry.«from» = some s ∧ parseTime entry.«to» = some e ∧
        e ≤ s)) ∧
    (∀ ev ∈ buildEvents schedule, ev.start < ev.«end») := by
  exact ⟨validateEntry_none_iff day entry, buildEvents_valid⟩

/-- Witness for C5: an inverted interval is dropped, a well-formed one is
retained with `start < end`. -/
theorem claim5_witness :
    validateEntry "mon" ⟨"09:00", "08:00", none, none, none, none⟩ = none ∧
    (⟨"mon", 540, 600, none, "", "", false⟩ : Event).start <
      (⟨"mon", 540, 600, none, "", "", false⟩ : Event).«end» := by
  have h := claim5_validation_drops "mon" ⟨"09:00", "08:00", none, none, none, none⟩
    [("mon", [⟨"09:00", "10:00", none, none, none, none⟩])]
  refine ⟨h.1.mpr (Or.inr (Or.inr ⟨540, 480, rfl, rfl, by decide⟩)), ?_⟩
  exact h.2 ⟨"mon", 540, 600, none, "", "", false⟩ (by decide)

/-- C9: an empty validated event set makes `renderCalendar` emit the explicit
no-events placeholder and stop — by construction the `noEvents` outcome
carries no slots and no placements, and it is an ordinary return, not an
error. -/
theorem claim9_empty_marker (schedule : List (String × List Entry))
    (h : buildEvents schedule = []) :
    renderCalendar schedule = RenderOutput.noEvents := by
  unfold renderCalendar
  rw [h]
  rfl

/-- Witness for C9 at the empty payload. -/
theorem claim9_witness : renderCalendar [] = RenderOutput.noEvents :=
  claim9_empty_marker [] rfl

/-- C8 counterexample: the entry 10:00-25:00 parses to (600, 1500), passes
validation (both non-NaN, 600 < 1500) and is retained with an endpoint
outside [0, 1440). -/
theorem claim8_counterexample :
    buildEvents [("mon", [⟨"10:00", "25:00", none, none, none, none⟩])] =
      [⟨"mon", 600, 1500, none, "", "", false⟩] ∧
    ¬ ((1500 : Int) < 1440) := by
  decide

/-- C8 (amended): validation guarantees only that retained events have
integer (non-NaN) endpoints with `start < end`; it imposes no [0, 1440)
range restriction, and events with endpoints outside that range can be
retained. -/
theorem claim8_no_range_guarantee :
    (∀ (schedule : List (String × List Entry)), ∀ ev ∈ buildEvents schedule,
      ev.start < ev.«end») ∧
    (∃ schedule : List (String × List Entry), ∃ ev : Event,
      ev ∈ buildEvents schedule ∧ (1440 : Int) ≤ ev.«end») := by
  refine ⟨fun schedule => buildEvents_valid, ?_⟩
  exact ⟨[("mon", [⟨"10:00", "25:00", none, none, none, none⟩])],
    ⟨"mon", 600, 1500, none, "", "", false⟩, by decide, by decide⟩

/-- Witness for C8 (amended) at a concrete retained event. -/
theorem claim8_witness :
    (⟨"mon", 600, 1500, none, "", "", false⟩ : Event).start <
      (⟨"mon", 600, 1500, none, "", "", false⟩ : Event).«end» :=
  claim8_no_range_guarantee.1 [("mon", [⟨"10:00", "25:00", none, none, none, none⟩])]
    ⟨"mon", 600, 1500, none, "", "", false⟩ (by decide)

set_option maxRecDepth 200000 in
/-- The round-trip law checked over the whole [0, 1440) range. -/
theorem roundTripAll :
    (List.range 1440).all
      (fun n => parseTime (formatTime (n : Int)) == some (n : Int)) = true := by
  rfl

/-- C6: formatting a minute value of [0, 1440) to "HH:mm" and parsing it back
is the identity. -/
theorem claim6_round_trip (x : Int) (h0 : 0 ≤ x) (h1 : x < 1440) :
    parseTime (formatTime x) = some x := by
  have hx : x = ((x.toNat : Nat) : Int) := (Int.toNat_of_nonneg h0).symm
  have hn : x.toNat ∈ List.range 1440 := by
    rw [List.mem_range]
    omega
  have h := List.all_eq_true.mp roundTripAll x.toNat hn
  rw [beq_iff_eq] at h
  rw [hx]
  exact h

/-- Witness for C6 at 09:05. -/
theorem claim6_witness : parseTime (formatTime 545) = some 545 :=
  claim6_round_trip 545 (by decide) (by decide)

/-! ### Helper lemmas: grid bounds and slots -/

theorem foldl_min_spec (l : List Int) (i : Int) :
    (l.foldl min i ≤ i) ∧ (∀ x ∈ l, l.foldl min i ≤ x) ∧
    (l.foldl min i = i ∨ l.foldl min i ∈ l) := by
  induction l generalizing i with
  | nil => simp
  | cons a t ih =>
    simp only [List.foldl_cons]
    obtain ⟨h1, h2, h3⟩ := ih (min i a)
    refine ⟨le_trans h1 (min_le_left _ _), ?_, ?_⟩
    · intro x hx
      rcases List.mem_cons.mp hx with rfl | hx
      · exact le_trans h1 (min_le_right _ _)
      · exact h2 x hx
    · rcases h3 with h | h
      · rcases le_total i a with hia | hia
        · exact Or.inl (by rw [h, min_eq_left hia])
        · refine Or.inr ?_
          rw [h, min_eq_right hia]
          exact List.mem_cons_self _ _
      · exact Or.inr (List.mem_cons_of_mem _ h)

theorem foldl_max_spec (l : List Int) (i : Int) :
    (i ≤ l.foldl max i) ∧ (∀ x ∈ l, x ≤ l.foldl max i) ∧
    (l.foldl max i = i ∨ l.foldl max i ∈ l) := by
  induction l generalizing i with
  | nil => simp
  | cons a t ih =>
    simp only [List.foldl_cons]
    obtain ⟨h1, h2, h3⟩ := ih (max i a)
    refine ⟨le_trans (le_max_left _ _) h1, ?_, ?_⟩
    · intro x hx
      rcases List.mem_cons.mp hx with rfl | hx
      · exact le_trans (le_max_right _ _) h1
      · exact h2 x hx
    · rcases h3 with h | h
      · rcases le_total a i with hia | hia
        · exact Or.inl (by rw [h, max_eq_left hia])
        · refine Or.inr ?_
          rw [h, max_eq_right hia]
          exact List.mem_cons_self _ _
      · exact Or.inr (List.mem_cons_of_mem _ h)

theorem minStart?_aux (t : List Event) (m : Int) :
    t.foldl
      (fun acc e => some (match acc with | none => e.start | some m => min m e.start))
      (some m) = some (t.foldl (fun m e => min m e.start) m) := by
  induction t generalizing m with
  | nil => rfl
  | cons b t ih =>
    simp only [List.foldl_cons]
    exact ih (min m b.start)

theorem minStart?_cons (a : Event) (t : List Event) :
    minStart? (a :: t) = some (t.foldl (fun m e => min m e.start) a.start) := by
  unfold minStart?
  simp only [List.foldl_cons]
  exact minStart?_aux t a.start

/-- The `Infinity`-seeded fold computes the minimum start of a non-empty list. -/
theorem minStart?_spec {events : List Event} (h : events ≠ []) :
    ∃ m : Int, minStart? events = some m ∧ (∀ e ∈ events, m ≤ e.start) ∧
      ∃ e ∈ events, e.start = m := by
  cases events with
  | nil => exact absurd rfl h
  | cons a t =>
    refine ⟨t.foldl (fun m e => min m e.start) a.start, minStart?_cons a t, ?_, ?_⟩
    all_goals
      have hmap : t.foldl (fun m e => min m e.start) a.start =
          (t.map (fun e => e.start)).foldl min a.start := by
        rw [List.foldl_map]
      have hspec := foldl_min_spec (t.map (fun e => e.start)) a.start
      rw [← hmap] at hspec
      obtain ⟨h1, h2, h3⟩ := hspec
    · intro e he
      rcases List.mem_cons.mp he with rfl | he
      · exact h1
      · exact h2 _ (List.mem_map_of_mem _ he)
    · rcases h3 with heq | hmem
      · exact ⟨a, List.mem_cons_self _ _, heq.symm⟩
      · obtain ⟨e, he, heq⟩ := List.mem_map.mp hmem
        exact ⟨e, List.mem_cons_of_mem _ he, heq⟩

/-- The zero-seeded fold computes `max 0 (maximum end)`. -/
theorem maxEndFold_spec (events : List Event) :
    (∀ e ∈ events, e.«end» ≤ maxEndFold events) ∧ 0 ≤ maxEndFold events ∧
      (maxEndFold events = 0 ∨ ∃ e ∈ events, e.«end» = maxEndFold events) := by
  have hmap : maxEndFold events = (events.map (fun e => e.«end»)).foldl max 0 := by
    unfold maxEndFold
    rw [List.foldl_map]
  obtain ⟨h1, h2, h3⟩ := foldl_max_spec (events.map (fun e => e.«end»)) 0
  rw [← hmap] at h1 h2 h3
  refine ⟨fun e he => h2 _ (List.mem_map_of_mem _ he), h1, ?_⟩
  rcases h3 with h | h
  · exact Or.inl h
  · obtain ⟨e, he, heq⟩ := List.mem_map.mp h
    exact Or.inr ⟨e, he, heq⟩

theorem ceilDiv30_mul_of_dvd {m : Int} (h : (30 : Int) ∣ m) : ceilDiv30 m * 30 = m := by
  obtain ⟨k, rfl⟩ := h
  unfold ceilDiv30
  rw [show -(30 * k) = 30 * (-k) by ring]
  rw [Int.mul_fdiv_cancel_left _ (by norm_num)]
  ring

theorem fdiv_mul_le_self (m : Int) : m.fdiv 30 * 30 ≤ m := by
  rw [Int.fdiv_eq_ediv m (by norm_num)]
  exact Int.ediv_mul_le m (by norm_num)

theorem le_ceilDiv30_mul (m : Int) : m ≤ ceilDiv30 m * 30 := by
  unfold ceilDiv30
  have h := fdiv_mul_le_self (-m)
  omega

theorem dvd_fdiv_mul (m : Int) : (30 : Int) ∣ m.fdiv 30 * 30 :=
  ⟨m.fdiv 30, by ring⟩

theorem dvd_ceilDiv30_mul (m : Int) : (30 : Int) ∣ ceilDiv30 m * 30 :=
  ⟨ceilDiv30 m, by ring⟩

/-- Slot membership: exactly the 30-minute marks from `cs` up to (excluding)
`ce`, when both bounds are multiples of 30. -/
theorem slotsList_mem_iff {cs ce : Int} (hcs : (30 : Int) ∣ cs) (hce : (30 : Int) ∣ ce)
    (x : Int) : x ∈ slotsList cs ce ↔ cs ≤ x ∧ x < ce ∧ (30 : Int) ∣ (x - cs) := by
  have hd : (30 : Int) ∣ (ce - cs) := Dvd.dvd.sub hce hcs
  have hC : ceilDiv30 (ce - cs) * 30 = ce - cs := ceilDiv30_mul_of_dvd hd
  unfold slotsList
  constructor
  · intro hmem
    obtain ⟨k, hkmem, hx⟩ := List.mem_map.mp hmem
    have hk : k < (ceilDiv30 (ce - cs)).toNat := List.mem_range.mp hkmem
    subst hx
    have hk2 : (k : Int) < ceilDiv30 (ce - cs) := Int.lt_toNat.mp hk
    exact ⟨by omega, by omega, ⟨(k : Int), by ring⟩⟩
  · intro ⟨h1, h2, hdvd⟩
    obtain ⟨t, ht⟩ := hdvd
    have ht0 : 0 ≤ t := by omega
    have htC : t < ceilDiv30 (ce - cs) := by omega
    have hNpos : 0 < ceilDiv30 (ce - cs) := by omega
    have hcast : ((t.toNat : Nat) : Int) = t := Int.toNat_of_nonneg ht0
    refine List.mem_map.mpr
      ⟨t.toNat, List.mem_range.mpr ((Int.toNat_lt_toNat hNpos).mpr htC), ?_⟩
    rw [hcast]
    omega

theorem slotsList_pairwise (cs ce : Int) : (slotsList cs ce).Pairwise (· < ·) := by
  unfold slotsList
  exact List.Pairwise.map _ (fun a b hab => by omega) (List.pairwise_lt_range _)

/-- The populated-grid outcome of `renderCalendar`, spelled out. -/
theorem renderCalendar_grid {schedule : List (String × List Entry)}
    (hne : buildEvents schedule ≠ []) :
    renderCalendar schedule = RenderOutput.grid
      { conflictFound := detectConflictsFlag (buildEvents schedule),
        calendarStart := ((minStart? (buildEvents schedule)).getD 0).fdiv 30 * 30,
        calendarEnd := ceilDiv30 (maxEndFold (buildEvents schedule)) * 30,
        slots := slotsList (((minStart? (buildEvents schedule)).getD 0).fdiv 30 * 30)
                           (ceilDiv30 (maxEndFold (buildEvents schedule)) * 30),
        placements := (detectConflictsEvents (buildEvents schedule)).filterMap
          (placeEvent (((minStart? (buildEvents schedule)).getD 0).fdiv 30 * 30)) } := by
  unfold renderCalendar
  rw [if_neg]
  simp only [List.isEmpty_iff]
  exact hne

/-- C7 (amended): for a non-empty validated event set, `renderCalendar`
computes `gridStart = floor(min start / 30) * 30`, but
`gridEnd = ceil(M / 30) * 30` where `M` is the zero-seeded maximum of the
ends (`M = max 0 (max end)`, because the JS reduce starts from `0`, which
differs from `ceil(max end / 30) * 30` when all ends are negative); both
bounds are multiples of 30 bracketing every event, and the slots are exactly
the 30-minute marks from `gridStart` up to but excluding `gridEnd`, in
increasing order. -/
theorem claim7_grid_bounds (schedule : List (String × List Entry)) (g : GridOutput)
    (hne : buildEvents schedule ≠ [])
    (hg : renderCalendar schedule = RenderOutput.grid g) :
    (∃ m : Int, (∀ e ∈ buildEvents schedule, m ≤ e.start) ∧
      (∃ e ∈ buildEvents schedule, e.start = m) ∧
      g.calendarStart = m.fdiv 30 * 30) ∧
    (∃ M : Int, 0 ≤ M ∧ (∀ e ∈ buildEvents schedule, e.«end» ≤ M) ∧
      (M = 0 ∨ ∃ e ∈ buildEvents schedule, e.«end» = M) ∧
      g.calendarEnd = ceilDiv30 M * 30) ∧
    (∀ e ∈ buildEvents schedule,
      g.calendarStart ≤ e.start ∧ e.«end» ≤ g.calendarEnd) ∧
    ((30 : Int) ∣ g.calendarStart ∧ (30 : Int) ∣ g.calendarEnd) ∧
    (∀ x : Int, x ∈ g.slots ↔
      g.calendarStart ≤ x ∧ x < g.calendarEnd ∧ (30 : Int) ∣ (x - g.calendarStart)) ∧
    g.slots.Pairwise (· < ·) := by
  obtain ⟨m, hm, hub, hex⟩ := minStart?_spec hne
  obtain ⟨hMub, hM0, hMeq⟩ := maxEndFold_spec (buildEvents schedule)
  have hmgetD : (minStart? (buildEvents schedule)).getD 0 = m := by rw [hm]; rfl
  have hr := renderCalendar_grid hne
  rw [hg, hmgetD] at hr
  have hgR := RenderOutput.grid.inj hr
  have hcs : g.calendarStart = m.fdiv 30 * 30 := by rw [hgR]
  have hce : g.calendarEnd = ceilDiv30 (maxEndFold (buildEvents schedule)) * 30 := by
    rw [hgR]
  have hslots : g.slots =
      slotsList (m.fdiv 30 * 30) (ceilDiv30 (maxEndFold (buildEvents schedule)) * 30) := by
    rw [hgR]
  refine ⟨⟨m, hub, hex, hcs⟩,
    ⟨maxEndFold (buildEvents schedule), hM0, hMub, hMeq, hce⟩, ?_, ?_, ?_, ?_⟩
  · intro e he
    constructor
    · rw [hcs]
      exact le_trans (fdiv_mul_le_self m) (hub e he)
    · rw [hce]
      exact le_trans (hMub e he) (le_ceilDiv30_mul _)
  · constructor
    · rw [hcs]
      exact dvd_fdiv_mul m
    · rw [hce]
      exact dvd_ceilDiv30_mul _
  · intro x
    rw [hslots, hcs, hce]
    exact slotsList_mem_iff (dvd_fdiv_mul m) (dvd_ceilDiv30_mul _) x
  · rw [hslots]
    exact slotsList_pairwise _ _

/-- C7 counterexample: for the single retained event -300..-60 (from the
entry "-5:00".."-1:00") the zero-seeded reduce makes gridEnd = 0, while the
claim's formula ceil(max end / 30) * 30 gives -60 — the stated equality for
gridEnd fails on the code. -/
theorem claim7_counterexample :
    buildEvents [("mon", [⟨"-5:00", "-1:00", none, none, none, none⟩])] =
      [⟨"mon", -300, -60, none, "", "", false⟩] ∧
    (∃ g : GridOutput,
      renderCalendar [("mon", [⟨"-5:00", "-1:00", none, none, none, none⟩])] =
        RenderOutput.grid g ∧
      g.calendarEnd = 0 ∧ ceilDiv30 (-60) * 30 = -60 ∧
      g.calendarEnd ≠ ceilDiv30 (-60) * 30) := by
  refine ⟨by decide, ?_⟩
  have hne : buildEvents [("mon", [⟨"-5:00", "-1:00", none, none, none, none⟩])] ≠ [] := by
    decide
  refine ⟨_, renderCalendar_grid hne, ?_, by decide, ?_⟩
  · show ceilDiv30 (maxEndFold
      (buildEvents [("mon", [⟨"-5:00", "-1:00", none, none, none, none⟩])])) * 30 = 0
    decide
  · show ceilDiv30 (maxEndFold
      (buildEvents [("mon", [⟨"-5:00", "-1:00", none, none, none, none⟩])])) * 30 ≠
      ceilDiv30 (-60) * 30
    decide

/-- Witness for C7 (amended) at a concrete two-event schedule. -/
theorem claim7_witness :
    ∃ g : GridOutput,
      renderCalendar [("mon", [⟨"09:00", "10:20", none, none, none, none⟩,
                               ⟨"10:00", "11:00", none, none, none, none⟩])] =
        RenderOutput.grid g ∧
      ((30 : Int) ∣ g.calendarStart ∧ (30 : Int) ∣ g.calendarEnd) := by
  have hne : buildEvents [("mon", [⟨"09:00", "10:20", none, none, none, none⟩,
      ⟨"10:00", "11:00", none, none, none, none⟩])] ≠ [] := by decide
  have hr := renderCalendar_grid hne
  have h := claim7_grid_bounds
    [("mon", [⟨"09:00", "10:20", none, none, none, none⟩,
              ⟨"10:00", "11:00", none, none, none, none⟩])] _ hne hr
  exact ⟨_, hr, h.2.2.2.1⟩

/-! ### Sanity checks on concrete inputs -/

example : parseTime "09:00" = some 540 := by decide
example : parseTime "bad" = none := by decide
example : parseTime "12" = some 720 := by decide
example : parseTime "" = none := by decide
example : parseTime "-5:00" = some (-300) := by decide
example : parseTime "25:00" = some 1500 := by decide
example : formatTime 540 = "09:00" := by decide
example : formatTime 0 = "00:00" := by decide

end Advisor
